import Mathlib

/-!
Shallow embedding of the RAG chat backend (vector-store.ts, db-init.ts,
textsplitter.ts, index.ts).  Text is modelled as `List Char` (one entry per
character, matching JavaScript string indexing for the ASCII data used here).
External effects (the embedding HTTP call, the Postgres pool, the
conversational-memory store, the model generation call) are modelled as
explicit oracle functions passed in as parameters, and every outbound call a
handler makes is recorded in an explicit call trace.
-/

/-- Text, modelled as a list of characters. -/
abbrev Str := List Char

/-- Whitespace characters removed by JavaScript `String.prototype.trim`
(space, tab, newline, carriage return, vertical tab, form feed). -/
def jsWhitespace (c : Char) : Bool :=
  c = ' ' || c = '\t' || c = '\n' || c = '\r' || c = Char.ofNat 11 || c = Char.ofNat 12

/-- JavaScript `text.trim()`: drop leading and trailing whitespace. -/
def trim (s : Str) : Str :=
  ((s.dropWhile jsWhitespace).reverse.dropWhile jsWhitespace).reverse

/-- Message roles used by the handlers ("system" / "user" / "assistant"). -/
inductive Role where
  | system
  | user
  | assistant
deriving DecidableEq

/-- A role-tagged message passed to `agent.generateText`. -/
structure Message where
  role : Role
  content : Str
deriving DecidableEq

/-- Errors thrown inside the pipeline (vector-store.ts):
`emptyInput` — "Cannot create embedding for empty text";
`providerFailure` — the upstream embeddings call rejected;
`emptyEmbedding` — "OpenRouter (OpenAI client) returned empty embedding";
`db msg` — an error raised by `pool.query`. -/
inductive VError where
  | emptyInput
  | providerFailure
  | emptyEmbedding
  | db (msg : String)
deriving DecidableEq

/-- A row of the `documents` table: `content`, `embedding`, `chunk_index`
(the auto-increment `id` plays no role in the claims). -/
structure DocumentRow where
  content : Str
  embedding : List Rat
  chunkIndex : Nat
deriving DecidableEq

/-- A row produced by the retrieval SELECT: `id`, `content`, `similarity`. -/
structure SearchRow where
  id : Nat
  content : Str
  similarity : Rat
deriving DecidableEq

/-- One outbound call made by the backend, recorded in a trace. -/
inductive CallEvent where
  | embedApi (input : Str)
  | dbInsert (content : Str) (chunkIndex : Nat)
  | dbSearchQuery
  | getConversations (userId : Str)
  | getMessages (userId : Str) (conversationId : Str)
  | addMessage (userId : Str) (conversationId : Str)
  | generate (messages : List Message) (userId : Str) (conversationId : Str)
deriving DecidableEq

/-- The user identifier every call is scoped to — the hard-coded constant
`const USER_ID = "mohammed-alith"` of index.ts. -/
def USER_ID : Str := ("mohammed-alith").toList

/-- `getEmbedding` (vector-store.ts): trims the text, throws on blank input,
makes one embeddings API call (the oracle `provider`), and throws when the
provider rejects or returns a zero-length vector. -/
def getEmbedding (provider : Str → Except Unit (List Rat)) (text : Str) :
    Except VError (List Rat) × List CallEvent :=
  let input := trim text
  if input = [] then (Except.error VError.emptyInput, [])
  else
    match provider input with
    | Except.error _ => (Except.error VError.providerFailure, [CallEvent.embedApi input])
    | Except.ok emb =>
      if emb = [] then (Except.error VError.emptyEmbedding, [CallEvent.embedApi input])
      else (Except.ok emb, [CallEvent.embedApi input])

/-- `splitIntoChunks` (vector-store.ts): trims, returns `[]` on blank input,
else delegates to the text splitter (the `splitter` parameter stands for
`textSplitter.splitText`, which lives in the `@langchain/textsplitters`
dependency, not in this repository's sources). -/
def splitIntoChunks (splitter : Str → List Str) (text : Str) : List Str :=
  let trimmed := trim text
  if trimmed = [] then [] else splitter trimmed

/-- Columns of the `documents` table created by `initDocumentVectorTable`
(db-init.ts): `id SERIAL`, `content TEXT`, `embedding VECTOR(1536)`,
`chunk_index INT`. -/
def documentsTableColumns : List String := ["id", "content", "embedding", "chunk_index"]

/-- Table columns referenced by the SELECT text of `searchDocumentsByQuery`:
`SELECT id, content, 1 - (embedding <=> $1::vector) AS similarity FROM
documents WHERE document_id = $2 ORDER BY similarity DESC LIMIT $3`
(`similarity` is an output alias, not a table column reference). -/
def searchSqlReferencedColumns : List String := ["id", "content", "embedding", "document_id"]

/-- Number of distinct bind-parameter slots appearing in that SELECT text
($1, $2, $3). -/
def searchSqlParamSlots : Nat := 3

/-- A bind parameter supplied to `pool.query`: the pgvector literal built
from the embedding, or an integer. -/
inductive SqlParam where
  | vec (v : List Rat)
  | int (n : Nat)
deriving DecidableEq

/-- Postgres error message for the nonexistent column referenced in the WHERE
clause of the search SELECT. -/
def undefinedColumnMsg : String := "column document_id does not exist"

/-- Postgres error message for a bind with fewer parameters than the
statement's placeholder slots. -/
def missingParamMsg : String := "bind supplies 2 parameters, statement requires 3"

/-- Execution of the search SELECT by Postgres: the statement is rejected at
parse time when it references a column absent from the `documents` schema,
and at bind time when fewer parameters are supplied than placeholder slots;
only then would the row evaluation (`rows`) be produced. -/
def runSearchSql (params : List SqlParam) (rows : List SearchRow) :
    Except VError (List SearchRow) :=
  if ¬ (searchSqlReferencedColumns.all fun c => documentsTableColumns.contains c) then
    Except.error (VError.db undefinedColumnMsg)
  else if params.length < searchSqlParamSlots then
    Except.error (VError.db missingParamMsg)
  else Except.ok rows

/-- `searchDocumentsByQuery` (vector-store.ts): trims the query, returns `[]`
on blank input, embeds the query, then runs the SELECT above with the two
bind parameters `[embeddingLiteral, limit]`.  `dbEval` stands for the row
evaluation Postgres would perform had the statement been accepted. -/
def searchDocumentsByQuery (provider : Str → Except Unit (List Rat))
    (dbEval : List DocumentRow → List Rat → Nat → List SearchRow)
    (table : List DocumentRow) (query : Str) (limit : Nat) :
    Except VError (List SearchRow) × List CallEvent :=
  let q := trim query
  if q = [] then (Except.ok [], [])
  else
    match getEmbedding provider q with
    | (Except.error e, tr) => (Except.error e, tr)
    | (Except.ok emb, tr) =>
      (runSearchSql [SqlParam.vec emb, SqlParam.int limit] (dbEval table emb limit),
       tr ++ [CallEvent.dbSearchQuery])

/-- The embedding `getEmbedding` yields for a chunk when it succeeds
(`[]` in the failure case, which is never stored). -/
def embValue (provider : Str → Except Unit (List Rat)) (c : Str) : List Rat :=
  match (getEmbedding provider c).1 with
  | Except.ok emb => emb
  | Except.error _ => []

/-- Outcome of processing a single chunk during ingestion: embed it, then
insert it with its ordinal index (the `inserter` oracle stands for the
INSERT `pool.query`, which may throw a persistence error). -/
def stepResult (provider : Str → Except Unit (List Rat))
    (inserter : Str → Nat → Except VError Unit) (c : Str) (i : Nat) :
    Except VError (List Rat) :=
  match (getEmbedding provider c).1 with
  | Except.error e => Except.error e
  | Except.ok emb =>
    match inserter c i with
    | Except.error e => Except.error e
    | Except.ok _ => Except.ok emb

/-- The `for` loop of `ingestDocumentText`: for each chunk in order, embed it
and insert `(content, embedding, chunk_index = i)`; the first failing step
stops the loop and its error propagates; rows inserted before the failure
stay in the table (no transaction wraps the batch). -/
def ingestLoop (provider : Str → Except Unit (List Rat))
    (inserter : Str → Nat → Except VError Unit) :
    List Str → Nat → List DocumentRow →
    Except VError Unit × List DocumentRow × List CallEvent
  | [], _, table => (Except.ok (), table, [])
  | c :: rest, i, table =>
    match getEmbedding provider c with
    | (Except.error e, tr) => (Except.error e, table, tr)
    | (Except.ok emb, tr) =>
      match inserter c i with
      | Except.error e => (Except.error e, table, tr)
      | Except.ok _ =>
        let r := ingestLoop provider inserter rest (i + 1) (table ++ [⟨c, emb, i⟩])
        (r.1, r.2.1, tr ++ [CallEvent.dbInsert c i] ++ r.2.2)

/-- `ingestDocumentText` (vector-store.ts): chunk the text, return at once
when there are no chunks, else run the chunk loop starting at index 0. -/
def ingestDocumentText (splitter : Str → List Str)
    (provider : Str → Except Unit (List Rat))
    (inserter : Str → Nat → Except VError Unit)
    (table : List DocumentRow) (text : Str) :
    Except VError Unit × List DocumentRow × List CallEvent :=
  let chunks := splitIntoChunks splitter text
  if chunks = [] then (Except.ok (), table, [])
  else ingestLoop provider inserter chunks 0 table

/-- Number of leading chunks whose embed-then-insert step succeeds, counting
chunk indices from `i`. -/
def ingestK (provider : Str → Except Unit (List Rat))
    (inserter : Str → Nat → Except VError Unit) : List Str → Nat → Nat
  | [], _ => 0
  | c :: rest, i =>
    match stepResult provider inserter c i with
    | Except.error _ => 0
    | Except.ok _ => ingestK provider inserter rest (i + 1) + 1

/-- The rows the loop inserts for the given chunks, indices counted from
`i`. -/
def rowsFor (provider : Str → Except Unit (List Rat)) :
    List Str → Nat → List DocumentRow
  | [], _ => []
  | c :: rest, i => ⟨c, embValue provider c, i⟩ :: rowsFor provider rest (i + 1)

/-- The error produced by the failing step at position `k` of the chunk
list (chunk indices counted from 0). -/
def stepErrAt (provider : Str → Except Unit (List Rat))
    (inserter : Str → Nat → Except VError Unit) (chunks : List Str) (k : Nat) :
    VError :=
  match stepResult provider inserter (chunks.getD k []) k with
  | Except.error e => e
  | Except.ok _ => VError.emptyInput

/-- `conv_${Date.now()}`: the fresh conversation id minted from the current
time. -/
def convName (now : Nat) : Str := ("conv_").toList ++ (Nat.repr now).toList

/-- The header `Snippet ${idx + 1}:\n` prepended to each retrieved snippet in
the /api/chat and /api/mm-chat handlers (index.ts). -/
def snippetHeader (n : Nat) : Str :=
  ("Snippet ").toList ++ (Nat.repr n).toList ++ (":\n").toList

/-- The separator `\n\n---\n\n` joining the snippets. -/
def snippetSeparator : Str := ("\n\n---\n\n").toList

/-- The fixed text prepended to the RAG context in the system message. -/
def ragIntro : Str :=
  ("The following snippets are from the user's uploaded documents. Use them if relevant:\n\n").toList

/-- JavaScript `Array.prototype.map` with the element index, as used by
`docs.map((d, idx) => ...)`. -/
def mapWithIdx (f : Nat → Str → Str) : Nat → List Str → List Str
  | _, [] => []
  | i, a :: as => f i a :: mapWithIdx f (i + 1) as

/-- The list of formatted snippets: for the result at index `idx`, the header
numbered `idx + 1` followed by `d.content.slice(0, 1000)`. -/
def snippetList (docs : List SearchRow) : List Str :=
  mapWithIdx (fun i c => snippetHeader (i + 1) ++ c) 0 (docs.map fun d => d.content.take 1000)

/-- The joined snippet string `snippets` of the handlers. -/
def mkSnippets (docs : List SearchRow) : Str :=
  List.intercalate snippetSeparator (snippetList docs)

/-- `ragContext`: empty when there are no results, else the joined snippets
truncated by `snippets.slice(0, 4000)`. -/
def ragContextOf (docs : List SearchRow) : Str :=
  if docs = [] then [] else (mkSnippets docs).take 4000

/-- The message list passed to `agent.generateText`: a single system message
carrying the RAG context when it is non-empty (search errors are caught and
leave the context empty), followed by the user message. -/
def chatMessagesOf (searchRes : Except VError (List SearchRow)) (text : Str) :
    List Message :=
  let ragContext :=
    match searchRes with
    | Except.ok docs => ragContextOf docs
    | Except.error _ => []
  (if ragContext = [] then [] else [⟨Role.system, ragIntro ++ ragContext⟩])
    ++ [⟨Role.user, text⟩]

/-- Response of POST /api/chat: status, the generated `text` (200 only) and
the `conversationId` (200 only). -/
structure ChatResp where
  status : Nat
  text : Option Str
  conversationId : Option Str
deriving DecidableEq

/-- The POST /api/chat handler (index.ts): 400 on blank text; otherwise
search the documents (errors caught and ignored), build the prompt, call
`agent.generateText` scoped to `USER_ID`, and answer 200 with the generated
text and the conversation id (`body.conversationId ?? conv_${Date.now()}`). -/
def apiChat (provider : Str → Except Unit (List Rat))
    (dbEval : List DocumentRow → List Rat → Nat → List SearchRow)
    (table : List DocumentRow) (gen : List Message → Str)
    (text : Str) (convId? : Option Str) (now : Nat) :
    ChatResp × List CallEvent :=
  let conversationId := convId?.getD (convName now)
  if trim text = [] then (⟨400, none, none⟩, [])
  else
    let sr := searchDocumentsByQuery provider dbEval table text 5
    let messages := chatMessagesOf sr.1 text
    let answer := gen messages
    (⟨200, some answer, some conversationId⟩,
     sr.2 ++ [CallEvent.generate messages USER_ID conversationId])

/-- Response of POST /api/documents/ingest. -/
structure IngestResp where
  status : Nat
  success : Bool
deriving DecidableEq

/-- The POST /api/documents/ingest handler (index.ts): 400 on blank text;
otherwise ingest the trimmed text (an ingestion error propagates out of the
handler, surfacing as a server error), then record a system marker message
in conversation history when a conversation id was supplied. -/
def apiIngestDocuments (splitter : Str → List Str)
    (provider : Str → Except Unit (List Rat))
    (inserter : Str → Nat → Except VError Unit)
    (table : List DocumentRow) (text : Str) (convId? : Option Str) :
    IngestResp × List DocumentRow × List CallEvent :=
  let trimmed := trim text
  if trimmed = [] then (⟨400, false⟩, table, [])
  else
    match ingestDocumentText splitter provider inserter table trimmed with
    | (Except.error _, table1, tr) => (⟨500, false⟩, table1, tr)
    | (Except.ok _, table1, tr) =>
      match convId? with
      | none => (⟨200, true⟩, table1, tr)
      | some cid =>
        if cid = [] then (⟨200, true⟩, table1, tr)
        else (⟨200, true⟩, table1, tr ++ [CallEvent.addMessage USER_ID cid])

/-- The GET /api/conversations handler: lists conversations for the constant
`USER_ID` (the memory store is the oracle `mem`). -/
def apiConversations (mem : Str → List Str) : List Str × List CallEvent :=
  (mem USER_ID, [CallEvent.getConversations USER_ID])

/-- Response of GET /api/history. -/
structure HistoryResp where
  status : Nat
  userId : Option Str
  conversationId : Option Str
  messages : Option (List Str)
deriving DecidableEq

/-- The GET /api/history handler: 400 when the `conversationId` query
parameter is missing (or empty, which is falsy), else reads the messages for
`(USER_ID, conversationId)` and reports that userId in the response. -/
def apiHistory (mem : Str → Str → List Str) (convId? : Option Str) :
    HistoryResp × List CallEvent :=
  match convId? with
  | none => (⟨400, none, none, none⟩, [])
  | some cid =>
    if cid = [] then (⟨400, none, none, none⟩, [])
    else (⟨200, some USER_ID, some cid, some (mem USER_ID cid)⟩,
          [CallEvent.getMessages USER_ID cid])

/-- The default question `"Summarize the uploaded document."`. -/
def summarizeQuestion : Str := ("Summarize the uploaded document.").toList

/-- The default question `"Explain the uploaded content."`. -/
def explainQuestion : Str := ("Explain the uploaded content.").toList

/-- `question.trim() || (uploadedText ? "Summarize the uploaded document." :
"Explain the uploaded content.")` from the /api/mm-chat handler: the trimmed
question when non-empty, else a default chosen by whether the uploaded file
text is non-empty. -/
def mmEffectiveQuestion (question uploadedText : Str) : Str :=
  if trim question = [] then
    (if uploadedText = [] then explainQuestion else summarizeQuestion)
  else trim question

/-- Response of POST /api/mm-chat. -/
structure MmResp where
  status : Nat
  answer : Option Str
  conversationId : Option Str
deriving DecidableEq

/-- Text extracted from the uploaded file (`""` when no file was sent). -/
def mmUploadedText (file? : Option Str) : Str :=
  match file? with
  | some t => t
  | none => []

/-- `existingConversationId || conv_${Date.now()}` (an empty id is falsy and
is replaced by a fresh one). -/
def mmConversationId (convId? : Option Str) (now : Nat) : Str :=
  match convId? with
  | none => convName now
  | some c => if c = [] then convName now else c

/-- The retrieval-and-generation tail of the /api/mm-chat handler: search the
documents with the effective question (errors caught and ignored), build the
prompt, generate scoped to `USER_ID`, answer 200. -/
def mmChatCore (provider : Str → Except Unit (List Rat))
    (dbEval : List DocumentRow → List Rat → Nat → List SearchRow)
    (table : List DocumentRow) (gen : List Message → Str)
    (effQ : Str) (conversationId : Str) :
    MmResp × List CallEvent :=
  let sr := searchDocumentsByQuery provider dbEval table effQ 5
  let messages := chatMessagesOf sr.1 effQ
  let answer := gen messages
  (⟨200, some answer, some conversationId⟩,
   sr.2 ++ [CallEvent.generate messages USER_ID conversationId])

/-- The POST /api/mm-chat handler (index.ts): extract the uploaded file's
text; when its trim is non-empty, ingest it (an ingestion error propagates,
surfacing as a server error) and record a marker message in history; compute
the effective question; then retrieve and generate.  No request field is
required: there is no 400 path. -/
def apiMmChat (splitter : Str → List Str)
    (provider : Str → Except Unit (List Rat))
    (inserter : Str → Nat → Except VError Unit)
    (dbEval : List DocumentRow → List Rat → Nat → List SearchRow)
    (table : List DocumentRow) (gen : List Message → Str)
    (file? : Option Str) (question : Str) (convId? : Option Str) (now : Nat) :
    MmResp × List DocumentRow × List CallEvent :=
  let conversationId := mmConversationId convId? now
  let uploadedText := mmUploadedText file?
  if trim uploadedText = [] then
    let r := mmChatCore provider dbEval table gen
      (mmEffectiveQuestion question uploadedText) conversationId
    (r.1, table, r.2)
  else
    match ingestDocumentText splitter provider inserter table uploadedText with
    | (Except.error _, table1, tr) => (⟨500, none, none⟩, table1, tr)
    | (Except.ok _, table1, tr) =>
      let r := mmChatCore provider dbEval table1 gen
        (mmEffectiveQuestion question uploadedText) conversationId
      (r.1, table1, tr ++ [CallEvent.addMessage USER_ID conversationId] ++ r.2)

/-- The user a call is made on behalf of, when it carries one. -/
def eventUser : CallEvent → Option Str
  | CallEvent.embedApi _ => none
  | CallEvent.dbInsert _ _ => none
  | CallEvent.dbSearchQuery => none
  | CallEvent.getConversations u => some u
  | CallEvent.getMessages u _ => some u
  | CallEvent.addMessage u _ => some u
  | CallEvent.generate _ u _ => some u

/-- Every call in the trace that carries a user identifier carries
`USER_ID`. -/
def scopedToUser (tr : List CallEvent) : Prop :=
  ∀ e ∈ tr, eventUser e = none ∨ eventUser e = some USER_ID

/-- Chunk size configured for the splitter (chunkSize: 150). -/
def chunkSize : Nat := 150

/-- Chunk overlap configured for the splitter (chunkOverlap: 20). -/
def chunkOverlap : Nat := 20

/-- The paragraph separator, first in the configured priority list. -/
def paragraphSeparator : Str := ['\n', '\n']

/-- The line separator, second in the configured priority list. -/
def lineSeparator : Str := ['\n']

/-- The word separator, third in the configured priority list. -/
def wordSeparator : Str := [' ']

/-- `p` is a boundary for `sep` in `s` when `sep` starts at position `p`. -/
def isBoundaryAt (sep s : Str) (p : Nat) : Bool :=
  sep.isPrefixOf (s.drop p)

/-- Candidate split positions for `sep`: boundary positions inside the window
`[chunkOverlap + 1, chunkSize - chunkOverlap]` (positions 21..130), so that a
chunk ending `chunkOverlap` characters past the split stays within
`chunkSize` and every piece is longer than the overlap. -/
def boundaryCands (sep s : Str) : List Nat :=
  (List.range' (chunkOverlap + 1) (chunkSize - 2 * chunkOverlap)).filter
    (fun p => isBoundaryAt sep s p)

/-- Modelled from the spec: the split-point choice of the recursive splitter
(§4.1 of the spec).  The splitter implementation itself
(`RecursiveCharacterTextSplitter` of `@langchain/textsplitters`) is a
third-party dependency whose sources are not part of this repository; only
its configuration (size 150, overlap 20, separators paragraph / line /
word / character) appears in src.  The split is made at the last paragraph
boundary in the window when one exists, else the last line boundary, else
the last word boundary, else between individual characters at the window
end (position 130). -/
def pickSplit (s : Str) : Nat :=
  match (boundaryCands paragraphSeparator s).getLast? with
  | some p => p
  | none =>
    match (boundaryCands lineSeparator s).getLast? with
    | some p => p
    | none =>
      match (boundaryCands wordSeparator s).getLast? with
      | some p => p
      | none => chunkSize - chunkOverlap

/-- Modelled from the spec: the recursive chunking loop.  A text no longer
than `chunkSize` is a single chunk; otherwise the chunk runs from the start
to `chunkOverlap` characters past the chosen split, and the rest (starting
at the split, so the next chunk repeats the `chunkOverlap` characters before
its end) is chunked recursively.  `fuel` (instantiated with the text length)
bounds the recursion. -/
def chunkGo : Nat → Str → List Str
  | 0, s => [s]
  | fuel + 1, s =>
    if s.length ≤ chunkSize then [s]
    else s.take (pickSplit s + chunkOverlap) :: chunkGo fuel (s.drop (pickSplit s))

/-- Modelled from the spec: `chunk(text)` — empty on blank input (§4.1),
else the recursive chunking of the trimmed text. -/
def chunkModel (text : Str) : List Str :=
  let t := trim text
  if t = [] then [] else chunkGo t.length t

/-- Concatenation of the chunks after the leading overlap region of each
chunk but the first is removed. -/
def reconTail : List Str → Str
  | [] => []
  | c :: cs => c.drop chunkOverlap ++ reconTail cs

/-- Concatenation of the chunks ignoring overlap regions: the first chunk in
full, every later chunk without its leading `chunkOverlap` characters. -/
def recon : List Str → Str
  | [] => []
  | c :: cs => c ++ reconTail cs

/-- Every adjacent pair of chunks overlaps by exactly `chunkOverlap`
characters: the last `chunkOverlap` characters of a chunk equal the first
`chunkOverlap` characters of the next, and both chunks are at least that
long. -/
def adjOvB : List Str → Bool
  | c0 :: c1 :: r =>
    (decide (c0.drop (c0.length - chunkOverlap) = c1.take chunkOverlap)
      && decide (chunkOverlap ≤ c0.length) && decide (chunkOverlap ≤ c1.length))
      && adjOvB (c1 :: r)
  | _ => true

/-- The split of `s` prefers a paragraph boundary, then a line boundary,
then a word boundary, and falls back to a character split at the window end. -/
def splitPreference (s : Str) : Prop :=
  ((boundaryCands paragraphSeparator s ≠ [] →
      isBoundaryAt paragraphSeparator s (pickSplit s) = true)
    ∧ (boundaryCands paragraphSeparator s = [] →
        boundaryCands lineSeparator s ≠ [] →
        isBoundaryAt lineSeparator s (pickSplit s) = true)
    ∧ (boundaryCands paragraphSeparator s = [] →
        boundaryCands lineSeparator s = [] →
        boundaryCands wordSeparator s ≠ [] →
        isBoundaryAt wordSeparator s (pickSplit s) = true)
    ∧ (boundaryCands paragraphSeparator s = [] →
        boundaryCands lineSeparator s = [] →
        boundaryCands wordSeparator s = [] →
        pickSplit s = chunkSize - chunkOverlap))

/-- The error of the failing step at position `k` of the chunk list when the
loop starts at chunk index `i`. -/
def stepErrAtFrom (provider : Str → Except Unit (List Rat))
    (inserter : Str → Nat → Except VError Unit) (chunks : List Str) (i k : Nat) :
    VError :=
  match stepResult provider inserter (chunks.getD k []) (i + k) with
  | Except.error e => e
  | Except.ok _ => VError.emptyInput

/-- A sample embeddings oracle that always succeeds. -/
def demoProvider : Str → Except Unit (List Rat) := fun _ => Except.ok [1]

/-- A sample embeddings oracle that always rejects. -/
def demoFailProvider : Str → Except Unit (List Rat) := fun _ => Except.error ()

/-- A sample row evaluation oracle. -/
def demoDbEval : List DocumentRow → List Rat → Nat → List SearchRow := fun _ _ _ => []

/-- A sample INSERT oracle that always succeeds. -/
def demoInserter : Str → Nat → Except VError Unit := fun _ _ => Except.ok ()

/-- A sample splitter producing a single chunk. -/
def demoSplitter : Str → List Str := fun s => [s]

/-- A sample conversation-listing oracle. -/
def demoMem : Str → List Str := fun _ => []

/-- A sample message-history oracle. -/
def demoHistMem : Str → Str → List Str := fun _ _ => []

/-- A sample generation oracle. -/
def demoGen : List Message → Str := fun _ => ("ok").toList

/-- A sample retrieval query. -/
def demoQuery : Str := ("What color is the sky?").toList

/-- A sample non-empty documents table. -/
def demoTable : List DocumentRow := [⟨("The sky is blue.").toList, [1], 0⟩]

/-- The chunk indices of the rows inserted for `cs` starting at index `i`. -/
theorem rowsFor_map_chunkIndex (provider : Str → Except Unit (List Rat)) :
    ∀ (cs : List Str) (i : Nat),
      (rowsFor provider cs i).map DocumentRow.chunkIndex = List.range' i cs.length := by
  intro cs
  induction cs with
  | nil => intro i; simp [rowsFor]
  | cons c rest ih => intro i; simp [rowsFor, List.range'_succ, ih]

/-- At most all chunks succeed. -/
theorem ingestK_le (provider : Str → Except Unit (List Rat))
    (inserter : Str → Nat → Except VError Unit) :
    ∀ (cs : List Str) (i : Nat), ingestK provider inserter cs i ≤ cs.length := by
  intro cs
  induction cs with
  | nil => intro i; simp [ingestK]
  | cons c rest ih =>
    intro i
    cases hs : stepResult provider inserter c i with
    | error e => simp [ingestK, hs]
    | ok emb => simp only [ingestK, hs, List.length_cons]; exact Nat.succ_le_succ (ih _)

/-- Behaviour of the ingestion loop: with `k` the number of leading chunks
whose step succeeds, the table is extended by exactly the rows for those `k`
chunks (tagged with consecutive indices starting at `i`), the loop succeeds
iff all chunks succeed, and otherwise the error of the failing step
propagates. -/
theorem ingestLoop_spec (provider : Str → Except Unit (List Rat))
    (inserter : Str → Nat → Except VError Unit) :
    ∀ (chunks : List Str) (i : Nat) (table : List DocumentRow),
      (ingestLoop provider inserter chunks i table).2.1
          = table ++ rowsFor provider (chunks.take (ingestK provider inserter chunks i)) i
      ∧ ((ingestLoop provider inserter chunks i table).1 = Except.ok ()
          ↔ ingestK provider inserter chunks i = chunks.length)
      ∧ (ingestK provider inserter chunks i < chunks.length →
          (ingestLoop provider inserter chunks i table).1
            = Except.error (stepErrAtFrom provider inserter chunks i
                (ingestK provider inserter chunks i))) := by
  intro chunks
  induction chunks with
  | nil =>
    intro i table
    refine ⟨by simp [ingestLoop, ingestK, rowsFor], by simp [ingestLoop, ingestK], ?_⟩
    intro h
    simp [ingestK] at h
  | cons c rest ih =>
    intro i table
    rcases hge : getEmbedding provider c with ⟨res, tr⟩
    cases res with
    | error e =>
      have hstep : stepResult provider inserter c i = Except.error e := by
        simp [stepResult, hge]
      have hk : ingestK provider inserter (c :: rest) i = 0 := by
        simp [ingestK, hstep]
      refine ⟨?_, ?_, ?_⟩
      · simp [ingestLoop, hge, hk, rowsFor]
      · simp [ingestLoop, hge, hk]
      · intro _
        simp [ingestLoop, hge, hk, stepErrAtFrom, hstep]
    | ok emb =>
      cases hins : inserter c i with
      | error e =>
        have hstep : stepResult provider inserter c i = Except.error e := by
          simp [stepResult, hge, hins]
        have hk : ingestK provider inserter (c :: rest) i = 0 := by
          simp [ingestK, hstep]
        refine ⟨?_, ?_, ?_⟩
        · simp [ingestLoop, hge, hins, hk, rowsFor]
        · simp [ingestLoop, hge, hins, hk]
        · intro _
          simp [ingestLoop, hge, hins, hk, stepErrAtFrom, hstep]
      | ok u =>
        have hstep : stepResult provider inserter c i = Except.ok emb := by
          simp [stepResult, hge, hins]
        have hk : ingestK provider inserter (c :: rest) i
            = ingestK provider inserter rest (i + 1) + 1 := by
          simp [ingestK, hstep]
        have hemb : embValue provider c = emb := by
          simp [embValue, hge]
        obtain ⟨ih1, ih2, ih3⟩ := ih (i + 1) (table ++ [⟨c, emb, i⟩])
        refine ⟨?_, ?_, ?_⟩
        · simp only [ingestLoop, hge, hins, hk, List.take_cons, rowsFor, hemb]
          rw [ih1]
          simp
        · simp only [ingestLoop, hge, hins, hk, List.length_cons]
          rw [ih2]
          omega
        · intro hlt
          rw [hk] at hlt
          simp only [List.length_cons] at hlt
          have hlt' : ingestK provider inserter rest (i + 1) < rest.length := by omega
          simp only [ingestLoop, hge, hins, hk]
          rw [ih3 hlt']
          have harg : i + (ingestK provider inserter rest (i + 1) + 1)
              = (i + 1) + ingestK provider inserter rest (i + 1) := by omega
          simp [stepErrAtFrom, List.getD_cons_succ, harg]

/-- The embedding call emits only user-less events. -/
theorem getEmbedding_trace_user (provider : Str → Except Unit (List Rat)) (text : Str) :
    ∀ e ∈ (getEmbedding provider text).2, eventUser e = none := by
  intro e he
  unfold getEmbedding at he
  by_cases h : trim text = []
  · simp [h] at he
  · simp only [h, if_false] at he
    cases hp : provider (trim text) with
    | error u => simp [hp] at he; simp [he, eventUser]
    | ok emb =>
      by_cases hemb : emb = [] <;> simp [hp, hemb] at he <;> simp [he, eventUser]

/-- The document search emits only user-less events. -/
theorem search_trace_user (provider : Str → Except Unit (List Rat))
    (dbEval : List DocumentRow → List Rat → Nat → List SearchRow)
    (table : List DocumentRow) (query : Str) (limit : Nat) :
    ∀ e ∈ (searchDocumentsByQuery provider dbEval table query limit).2,
      eventUser e = none := by
  intro e he
  unfold searchDocumentsByQuery at he
  by_cases h : trim query = []
  · simp [h] at he
  · simp only [h, if_false] at he
    rcases hge : getEmbedding provider (trim query) with ⟨res, tr⟩
    have htr : ∀ x ∈ tr, eventUser x = none := by
      intro x hx
      exact getEmbedding_trace_user provider (trim query) x (by rw [hge]; exact hx)
    cases res with
    | error e2 => rw [hge] at he; exact htr e he
    | ok emb =>
      rw [hge] at he
      simp only [List.mem_append, List.mem_singleton] at he
      rcases he with he | he
      · exact htr e he
      · simp [he, eventUser]

/-- The ingestion loop emits only user-less events. -/
theorem ingestLoop_trace_user (provider : Str → Except Unit (List Rat))
    (inserter : Str → Nat → Except VError Unit) :
    ∀ (chunks : List Str) (i : Nat) (table : List DocumentRow),
      ∀ e ∈ (ingestLoop provider inserter chunks i table).2.2, eventUser e = none := by
  intro chunks
  induction chunks with
  | nil => intro i table e he; simp [ingestLoop] at he
  | cons c rest ih =>
    intro i table e he
    rcases hge : getEmbedding provider c with ⟨res, tr⟩
    have htr : ∀ x ∈ tr, eventUser x = none := by
      intro x hx
      exact getEmbedding_trace_user provider c x (by rw [hge]; exact hx)
    cases res with
    | error e2 => simp only [ingestLoop, hge] at he; exact htr e he
    | ok emb =>
      cases hins : inserter c i with
      | error e2 => simp only [ingestLoop, hge, hins] at he; exact htr e he
      | ok u =>
        simp only [ingestLoop, hge, hins, List.append_assoc, List.mem_append,
          List.mem_singleton] at he
        rcases he with he | he | he
        · exact htr e he
        · simp [he, eventUser]
        · exact ih (i + 1) _ e he

/-- Document ingestion emits only user-less events. -/
theorem ingest_trace_user (splitter : Str → List Str)
    (provider : Str → Except Unit (List Rat))
    (inserter : Str → Nat → Except VError Unit)
    (table : List DocumentRow) (text : Str) :
    ∀ e ∈ (ingestDocumentText splitter provider inserter table text).2.2,
      eventUser e = none := by
  intro e he
  unfold ingestDocumentText at he
  by_cases h : splitIntoChunks splitter text = []
  · simp [h] at he
  · simp only [h, if_false] at he
    exact ingestLoop_trace_user provider inserter _ 0 table e he

/-- C1: the claim that `search(q, limit=N)` returns at most `N` results
sorted by non-increasing similarity (with similarity `1 - cosineDistance`)
fails on the code: the SELECT of `searchDocumentsByQuery` references the
column `document_id`, which `initDocumentVectorTable` never creates, and
binds two parameters (`[embeddingLiteral, limit]`) against three placeholder
slots ($1, $2, $3), so every search over a non-blank query raises a database
error instead of returning an ordered row list — shown here on a concrete
query against both a non-empty and an empty table. -/
theorem claim_C1_search_raises_db_error :
    (searchDocumentsByQuery demoProvider demoDbEval demoTable demoQuery 5).1
      = Except.error (VError.db undefinedColumnMsg)
    ∧ (searchDocumentsByQuery demoProvider demoDbEval [] demoQuery 5).1
      = Except.error (VError.db undefinedColumnMsg) := by
  exact ⟨rfl, rfl⟩

/-- C4: on input that is empty or whitespace-only after trimming, chunking
returns the empty sequence, ingestion leaves the table unchanged and raises
no error, retrieval returns the empty result, and embedding fails with the
empty-input error — each with an empty call trace, i.e. without any
embedding-API or database call. -/
theorem claim_C4_blank_input_noop (splitter : Str → List Str)
    (provider : Str → Except Unit (List Rat))
    (inserter : Str → Nat → Except VError Unit)
    (dbEval : List DocumentRow → List Rat → Nat → List SearchRow)
    (table : List DocumentRow) (text : Str) (limit : Nat)
    (h : trim text = []) :
    splitIntoChunks splitter text = []
    ∧ ingestDocumentText splitter provider inserter table text
        = (Except.ok (), table, [])
    ∧ searchDocumentsByQuery provider dbEval table text limit = (Except.ok [], [])
    ∧ getEmbedding provider text = (Except.error VError.emptyInput, []) := by
  have h1 : splitIntoChunks splitter text = [] := by simp [splitIntoChunks, h]
  refine ⟨h1, ?_, ?_, ?_⟩
  · simp [ingestDocumentText, h1]
  · simp [searchDocumentsByQuery, h]
  · simp [getEmbedding, h]

/-- Witness for C4 at the whitespace-only input `"   "`. -/
theorem claim_C4_witness :
    trim (("   ").toList) = []
    ∧ splitIntoChunks demoSplitter (("   ").toList) = []
    ∧ ingestDocumentText demoSplitter demoProvider demoInserter demoTable (("   ").toList)
        = (Except.ok (), demoTable, [])
    ∧ searchDocumentsByQuery demoProvider demoDbEval demoTable (("   ").toList) 5
        = (Except.ok [], [])
    ∧ getEmbedding demoProvider (("   ").toList) = (Except.error VError.emptyInput, []) := by
  have h := claim_C4_blank_input_noop demoSplitter demoProvider demoInserter demoDbEval
    demoTable (("   ").toList) 5 (by decide)
  exact ⟨by decide, h.1, h.2.1, h.2.2.1, h.2.2.2⟩

/-- C3: with `k` the number of leading chunks whose embed-then-insert step
succeeds, ingestion appends exactly the rows for chunks `0..k-1`, tagged
with ordinal chunk indices `0,1,…,k-1` in insertion order; it succeeds iff
every chunk succeeds, and when the step for chunk `k` fails, the rows
already inserted stay in the table (nothing rolls them back) and the failing
step's error is the one returned to the caller. -/
theorem claim_C3_ingest_order_and_partial_failure (splitter : Str → List Str)
    (provider : Str → Except Unit (List Rat))
    (inserter : Str → Nat → Except VError Unit)
    (table : List DocumentRow) (text : Str)
    (chunks : List Str) (hc : chunks = splitIntoChunks splitter text)
    (k : Nat) (hk : k = ingestK provider inserter chunks 0) :
    (ingestDocumentText splitter provider inserter table text).2.1
        = table ++ rowsFor provider (chunks.take k) 0
    ∧ (rowsFor provider (chunks.take k) 0).map DocumentRow.chunkIndex = List.range k
    ∧ ((ingestDocumentText splitter provider inserter table text).1 = Except.ok ()
        ↔ k = chunks.length)
    ∧ (k < chunks.length →
        (ingestDocumentText splitter provider inserter table text).1
          = Except.error (stepErrAt provider inserter chunks k)) := by
  subst hc
  subst hk
  have hle := ingestK_le provider inserter (splitIntoChunks splitter text) 0
  by_cases h0 : splitIntoChunks splitter text = []
  · rw [h0]
    refine ⟨?_, ?_, ?_, ?_⟩
    · simp [ingestDocumentText, h0, ingestK, rowsFor]
    · simp [ingestK, rowsFor]
    · simp [ingestDocumentText, h0, ingestK]
    · simp [ingestK]
  · obtain ⟨s1, s2, s3⟩ := ingestLoop_spec provider inserter (splitIntoChunks splitter text) 0 table
    have hlen : ((splitIntoChunks splitter text).take
        (ingestK provider inserter (splitIntoChunks splitter text) 0)).length
        = ingestK provider inserter (splitIntoChunks splitter text) 0 := by
      rw [List.length_take]
      omega
    refine ⟨?_, ?_, ?_, ?_⟩
    · simpa [ingestDocumentText, h0] using s1
    · rw [rowsFor_map_chunkIndex, hlen]
      exact (List.range_eq_range' _).symm
    · simpa [ingestDocumentText, h0] using s2
    · intro hlt
      have h3 := s3 hlt
      simpa [ingestDocumentText, h0, stepErrAt, stepErrAtFrom] using h3

/-- Witness for C3: ingesting `"hello"` with a single-chunk splitter inserts
exactly one row tagged with chunk index 0 and succeeds. -/
theorem claim_C3_witness :
    (ingestDocumentText demoSplitter demoProvider demoInserter [] (("hello").toList)).2.1
      = [⟨("hello").toList, [1], 0⟩]
    ∧ (ingestDocumentText demoSplitter demoProvider demoInserter [] (("hello").toList)).1
      = Except.ok () := by
  have h := claim_C3_ingest_order_and_partial_failure demoSplitter demoProvider demoInserter
    [] (("hello").toList) _ rfl _ rfl
  exact ⟨h.1.trans (by decide), h.2.2.1.mpr (by decide)⟩

/-- C8: when ingestion succeeds, the chunk indices of the rows it appended
are exactly `0, 1, …, n-1` in insertion order, where `n` is the number of
chunks — consecutive, zero-based and strictly increasing. -/
theorem claim_C8_chunk_indices_zero_based (splitter : Str → List Str)
    (provider : Str → Except Unit (List Rat))
    (inserter : Str → Nat → Except VError Unit)
    (table : List DocumentRow) (text : Str)
    (chunks : List Str) (hc : chunks = splitIntoChunks splitter text)
    (hok : (ingestDocumentText splitter provider inserter table text).1 = Except.ok ()) :
    ((ingestDocumentText splitter provider inserter table text).2.1.drop table.length).map
        DocumentRow.chunkIndex = List.range chunks.length := by
  subst hc
  by_cases h0 : splitIntoChunks splitter text = []
  · simp [ingestDocumentText, h0]
  · obtain ⟨s1, s2, s3⟩ := ingestLoop_spec provider inserter (splitIntoChunks splitter text) 0 table
    have hok' : (ingestLoop provider inserter (splitIntoChunks splitter text) 0 table).1
        = Except.ok () := by
      simpa [ingestDocumentText, h0] using hok
    have hk := s2.mp hok'
    have ht : (ingestDocumentText splitter provider inserter table text).2.1
        = table ++ rowsFor provider
            ((splitIntoChunks splitter text).take
              (ingestK provider inserter (splitIntoChunks splitter text) 0)) 0 := by
      simpa [ingestDocumentText, h0] using s1
    rw [ht, List.drop_left, rowsFor_map_chunkIndex, hk, List.take_length]
    exact (List.range_eq_range' _).symm

/-- Witness for C8: ingesting `"hi there"` as one chunk appends chunk index
0 exactly. -/
theorem claim_C8_witness :
    ((ingestDocumentText demoSplitter demoProvider demoInserter demoTable
        (("hi there").toList)).2.1.drop demoTable.length).map DocumentRow.chunkIndex
      = [0] := by
  have h := claim_C8_chunk_indices_zero_based demoSplitter demoProvider demoInserter
    demoTable (("hi there").toList) _ rfl rfl
  exact h.trans (by decide)

/-- Each formatted snippet is the numbered header plus at most 1000
characters of content, wherever it sits in the list. -/
theorem snippet_len_aux :
    ∀ (docs : List SearchRow) (j i : Nat),
      ((mapWithIdx (fun n c => snippetHeader (n + 1) ++ c) j
          (docs.map fun d => d.content.take 1000)).getD i []).length
        ≤ (snippetHeader (j + i + 1)).length + 1000 := by
  intro docs
  induction docs with
  | nil => intro j i; simp [mapWithIdx]
  | cons d ds ih =>
    intro j i
    cases i with
    | zero =>
      simp only [List.map_cons, mapWithIdx, List.getD_cons_zero, List.length_append,
        List.length_take, Nat.add_zero]
      omega
    | succ i =>
      simp only [List.map_cons, mapWithIdx, List.getD_cons_succ]
      have harg : j + (i + 1) + 1 = j + 1 + i + 1 := by omega
      rw [harg]
      exact ih (j + 1) i

/-- C6: the assembled context formats each result as a numbered snippet
whose content is individually truncated to 1000 characters, joins them and
truncates the join to 4000 characters, so its total length never exceeds
4000; for an empty result list the context is the empty string and the
prompt holds no system message, only the user message. -/
theorem claim_C6_context_assembly (d : SearchRow) (ds docs : List SearchRow)
    (text : Str) (i : Nat) :
    (ragContextOf docs).length ≤ 4000
    ∧ ragContextOf (d :: ds) = (mkSnippets (d :: ds)).take 4000
    ∧ ((snippetList docs).getD i []).length ≤ (snippetHeader (i + 1)).length + 1000
    ∧ ragContextOf [] = []
    ∧ chatMessagesOf (Except.ok []) text = [⟨Role.user, text⟩] := by
  refine ⟨?_, ?_, ?_, ?_, ?_⟩
  · cases docs with
    | nil => simp [ragContextOf]
    | cons x xs =>
      have hb : ((mkSnippets (x :: xs)).take 4000).length ≤ 4000 := by
        rw [List.length_take]
        exact Nat.min_le_left _ _
      simp only [ragContextOf, if_neg (List.cons_ne_nil x xs)]
      exact hb
  · simp [ragContextOf]
  · have h := snippet_len_aux docs 0 i
    simpa [snippetList, Nat.zero_add] using h
  · simp [ragContextOf]
  · simp [chatMessagesOf, ragContextOf]

/-- C2: when the text is non-blank and the retrieval step (query embedding
or vector search) errors, the /api/chat handler still answers 200 with the
generated text, and the messages given to the generation call contain no
system-context message — only the user message. -/
theorem claim_C2_retrieval_error_best_effort (provider : Str → Except Unit (List Rat))
    (dbEval : List DocumentRow → List Rat → Nat → List SearchRow)
    (table : List DocumentRow) (gen : List Message → Str)
    (text : Str) (convId? : Option Str) (now : Nat)
    (htext : trim text ≠ [])
    (herr : ∃ e, (searchDocumentsByQuery provider dbEval table text 5).1 = Except.error e) :
    (apiChat provider dbEval table gen text convId? now).1.status = 200
    ∧ (apiChat provider dbEval table gen text convId? now).1.text
        = some (gen [⟨Role.user, text⟩])
    ∧ ∀ msgs u cid,
        CallEvent.generate msgs u cid ∈ (apiChat provider dbEval table gen text convId? now).2 →
        ∀ m ∈ msgs, m.role ≠ Role.system := by
  obtain ⟨e, he⟩ := herr
  have hmsgs : chatMessagesOf (searchDocumentsByQuery provider dbEval table text 5).1 text
      = [⟨Role.user, text⟩] := by
    rw [he]
    simp [chatMessagesOf]
  refine ⟨?_, ?_, ?_⟩
  · simp [apiChat, htext]
  · simp [apiChat, htext, hmsgs]
  · intro msgs u cid hmem m hm
    simp only [apiChat, htext, if_false, List.mem_append, List.mem_singleton] at hmem
    rcases hmem with hmem | hmem
    · have hnone := search_trace_user provider dbEval table text 5 _ hmem
      simp [eventUser] at hnone
    · simp only [CallEvent.generate.injEq] at hmem
      obtain ⟨h1, _, _⟩ := hmem
      subst h1
      rw [hmsgs] at hm
      simp only [List.mem_singleton] at hm
      rw [hm]
      simp

/-- Witness for C2: with the always-failing SELECT, a concrete chat request
with non-blank text still answers 200 with the generated text. -/
theorem claim_C2_witness :
    (apiChat demoProvider demoDbEval demoTable demoGen (("hi").toList) none 0).1.status = 200
    ∧ (apiChat demoProvider demoDbEval demoTable demoGen (("hi").toList) none 0).1.text
        = some (demoGen [⟨Role.user, ("hi").toList⟩]) := by
  have h := claim_C2_retrieval_error_best_effort demoProvider demoDbEval demoTable demoGen
    (("hi").toList) none 0 (by decide) ⟨VError.db undefinedColumnMsg, rfl⟩
  exact ⟨h.1, h.2.1⟩

/-- C7: the /api/chat handler answers 400 and makes no outbound call at all
(in particular no generation call) when the text is blank after trimming;
for non-blank text it performs the document retrieval and then the
generation call, and answers 200 carrying the generated text and the
conversation id. -/
theorem claim_C7_chat_status_codes (provider : Str → Except Unit (List Rat))
    (dbEval : List DocumentRow → List Rat → Nat → List SearchRow)
    (table : List DocumentRow) (gen : List Message → Str)
    (text : Str) (convId? : Option Str) (now : Nat) :
    (trim text = [] →
      (apiChat provider dbEval table gen text convId? now).1.status = 400
      ∧ (apiChat provider dbEval table gen text convId? now).2 = [])
    ∧ (trim text ≠ [] →
      (apiChat provider dbEval table gen text convId? now).1.status = 200
      ∧ (apiChat provider dbEval table gen text convId? now).1.text
          = some (gen (chatMessagesOf
              (searchDocumentsByQuery provider dbEval table text 5).1 text))
      ∧ (apiChat provider dbEval table gen text convId? now).1.conversationId
          = some (convId?.getD (convName now))
      ∧ (apiChat provider dbEval table gen text convId? now).2
          = (searchDocumentsByQuery provider dbEval table text 5).2
            ++ [CallEvent.generate
                (chatMessagesOf (searchDocumentsByQuery provider dbEval table text 5).1 text)
                USER_ID (convId?.getD (convName now))]) := by
  constructor
  · intro h
    constructor <;> simp [apiChat, h]
  · intro h
    refine ⟨?_, ?_, ?_, ?_⟩ <;> simp [apiChat, h]

/-- Witness for C7: blank text gives 400 with an empty trace, non-blank text
gives 200. -/
theorem claim_C7_witness :
    (apiChat demoProvider demoDbEval demoTable demoGen [] none 0).1.status = 400
    ∧ (apiChat demoProvider demoDbEval demoTable demoGen [] none 0).2 = []
    ∧ (apiChat demoProvider demoDbEval demoTable demoGen (("hi").toList) none 0).1.status
        = 200 := by
  have h1 := claim_C7_chat_status_codes demoProvider demoDbEval demoTable demoGen [] none 0
  have h2 := claim_C7_chat_status_codes demoProvider demoDbEval demoTable demoGen
    (("hi").toList) none 0
  exact ⟨(h1.1 (by decide)).1, (h1.1 (by decide)).2, (h2.2 (by decide)).1⟩

/-- `trim` written with `List.rdropWhile`. -/
theorem trim_eq_rdrop (s : Str) :
    trim s = List.rdropWhile jsWhitespace (s.dropWhile jsWhitespace) := rfl

/-- Trimming is idempotent. -/
theorem trim_trim (s : Str) : trim (trim s) = trim s := by
  rw [trim_eq_rdrop (trim s)]
  have h1 : (trim s).dropWhile jsWhitespace = trim s := by
    rw [List.dropWhile_eq_self_iff]
    intro hl
    have hpre : trim s <+: s.dropWhile jsWhitespace := by
      rw [trim_eq_rdrop]
      exact List.rdropWhile_prefix _ _
    have hlen : 0 < (s.dropWhile jsWhitespace).length :=
      lt_of_lt_of_le hl hpre.length_le
    have hget := List.IsPrefix.getElem hpre hl
    have hA := List.dropWhile_get_zero_not jsWhitespace s hlen
    simp only [List.get_eq_getElem] at hA ⊢
    rw [hget]
    exact hA
  rw [h1, trim_eq_rdrop s, List.rdropWhile_idempotent]

/-- On non-blank input the embedding call emits exactly one embeddings-API
event, whatever the provider answers. -/
theorem getEmbedding_trace_of_nonblank (provider : Str → Except Unit (List Rat))
    (text : Str) (h : trim text ≠ []) :
    (getEmbedding provider text).2 = [CallEvent.embedApi (trim text)] := by
  unfold getEmbedding
  simp only [h, if_false]
  cases hp : provider (trim text) with
  | error u => rfl
  | ok emb => by_cases hemb : emb = [] <;> simp [hemb]

/-- On a non-blank query the search makes the query-embedding call. -/
theorem search_embed_event (provider : Str → Except Unit (List Rat))
    (dbEval : List DocumentRow → List Rat → Nat → List SearchRow)
    (table : List DocumentRow) (q : Str) (limit : Nat) (h : trim q ≠ []) :
    CallEvent.embedApi (trim q) ∈ (searchDocumentsByQuery provider dbEval table q limit).2 := by
  rcases hge : getEmbedding provider (trim q) with ⟨res, tr⟩
  have htr : tr = [CallEvent.embedApi (trim q)] := by
    have h2 := getEmbedding_trace_of_nonblank provider (trim q)
      (by rw [trim_trim]; exact h)
    rw [hge] at h2
    rw [trim_trim] at h2
    exact h2
  unfold searchDocumentsByQuery
  simp only [h, if_false]
  rw [hge]
  cases res <;> simp [htr]

/-- /api/conversations lists only for `USER_ID`. -/
theorem conversations_scoped (mem : Str → List Str) :
    scopedToUser (apiConversations mem).2 := by
  intro e he
  simp only [apiConversations, List.mem_singleton] at he
  exact Or.inr (by rw [he]; rfl)

/-- /api/history reads only for `USER_ID`. -/
theorem history_scoped (mem : Str → Str → List Str) (convId? : Option Str) :
    scopedToUser (apiHistory mem convId?).2 := by
  intro e he
  unfold apiHistory at he
  cases convId? with
  | none => simp at he
  | some cid =>
    by_cases h : cid = []
    · simp [h] at he
    · simp only [h, if_false, List.mem_singleton] at he
      exact Or.inr (by rw [he]; rfl)

/-- /api/documents/ingest writes history only for `USER_ID`. -/
theorem ingest_endpoint_scoped (splitter : Str → List Str)
    (provider : Str → Except Unit (List Rat))
    (inserter : Str → Nat → Except VError Unit)
    (table : List DocumentRow) (text : Str) (convId? : Option Str) :
    scopedToUser (apiIngestDocuments splitter provider inserter table text convId?).2.2 := by
  intro e he
  unfold apiIngestDocuments at he
  by_cases h : trim text = []
  · simp [h] at he
  · simp only [h, if_false] at he
    rcases hing : ingestDocumentText splitter provider inserter table (trim text)
      with ⟨res, table1, tr⟩
    have htr : ∀ x ∈ tr, eventUser x = none := by
      intro x hx
      exact ingest_trace_user splitter provider inserter table (trim text) x
        (by rw [hing]; exact hx)
    rw [hing] at he
    cases res with
    | error e2 =>
      simp only at he
      exact Or.inl (htr e he)
    | ok u =>
      cases convId? with
      | none =>
        simp only at he
        exact Or.inl (htr e he)
      | some cid =>
        by_cases hcid : cid = []
        · simp only [hcid, if_true] at he
          exact Or.inl (htr e he)
        · simp only [hcid, if_false, List.mem_append, List.mem_singleton] at he
          rcases he with he | he
          · exact Or.inl (htr e he)
          · exact Or.inr (by rw [he]; rfl)

/-- /api/chat searches anonymously and generates only for `USER_ID`. -/
theorem chat_scoped (provider : Str → Except Unit (List Rat))
    (dbEval : List DocumentRow → List Rat → Nat → List SearchRow)
    (table : List DocumentRow) (gen : List Message → Str)
    (text : Str) (convId? : Option Str) (now : Nat) :
    scopedToUser (apiChat provider dbEval table gen text convId? now).2 := by
  intro e he
  by_cases h : trim text = []
  · simp [apiChat, h] at he
  · simp only [apiChat, h, if_false, List.mem_append, List.mem_singleton] at he
    rcases he with he | he
    · exact Or.inl (search_trace_user provider dbEval table text 5 e he)
    · exact Or.inr (by rw [he]; rfl)

/-- The retrieval-and-generation tail of /api/mm-chat is scoped to
`USER_ID`. -/
theorem mmcore_scoped (provider : Str → Except Unit (List Rat))
    (dbEval : List DocumentRow → List Rat → Nat → List SearchRow)
    (table : List DocumentRow) (gen : List Message → Str)
    (effQ conversationId : Str) :
    scopedToUser (mmChatCore provider dbEval table gen effQ conversationId).2 := by
  intro e he
  simp only [mmChatCore, List.mem_append, List.mem_singleton] at he
  rcases he with he | he
  · exact Or.inl (search_trace_user provider dbEval table effQ 5 e he)
  · exact Or.inr (by rw [he]; rfl)

/-- /api/mm-chat is scoped to `USER_ID`. -/
theorem mmchat_scoped (splitter : Str → List Str)
    (provider : Str → Except Unit (List Rat))
    (inserter : Str → Nat → Except VError Unit)
    (dbEval : List DocumentRow → List Rat → Nat → List SearchRow)
    (table : List DocumentRow) (gen : List Message → Str)
    (file? : Option Str) (question : Str) (convId? : Option Str) (now : Nat) :
    scopedToUser
      (apiMmChat splitter provider inserter dbEval table gen file? question convId? now).2.2 := by
  intro e he
  unfold apiMmChat at he
  by_cases h : trim (mmUploadedText file?) = []
  · simp only [h, if_true] at he
    exact mmcore_scoped provider dbEval table gen _ _ e he
  · simp only [h, if_false] at he
    rcases hing : ingestDocumentText splitter provider inserter table (mmUploadedText file?)
      with ⟨res, table1, tr⟩
    have htr : ∀ x ∈ tr, eventUser x = none := by
      intro x hx
      exact ingest_trace_user splitter provider inserter table (mmUploadedText file?) x
        (by rw [hing]; exact hx)
    rw [hing] at he
    cases res with
    | error e2 =>
      simp only at he
      exact Or.inl (htr e he)
    | ok u =>
      simp only [List.append_assoc, List.mem_append, List.mem_singleton] at he
      rcases he with he | he | he
      · exact Or.inl (htr e he)
      · exact Or.inr (by rw [he]; rfl)
      · exact mmcore_scoped provider dbEval table1 gen _ _ e he

/-- C9: every endpoint operates on behalf of the single hard-coded user
identifier "mohammed-alith": each memory read/write and each generation call
any handler makes carries exactly `USER_ID`, so no request touches another
user's conversations, and the 200 response of /api/history reports that
userId. -/
theorem claim_C9_single_user_scoping (mem : Str → List Str)
    (hmem : Str → Str → List Str) (convId? : Option Str)
    (splitter : Str → List Str) (provider : Str → Except Unit (List Rat))
    (inserter : Str → Nat → Except VError Unit)
    (dbEval : List DocumentRow → List Rat → Nat → List SearchRow)
    (table : List DocumentRow) (gen : List Message → Str)
    (text : Str) (file? : Option Str) (question : Str) (now : Nat)
    (cid : Str) (hcid : cid ≠ []) :
    scopedToUser (apiConversations mem).2
    ∧ scopedToUser (apiHistory hmem convId?).2
    ∧ scopedToUser (apiIngestDocuments splitter provider inserter table text convId?).2.2
    ∧ scopedToUser (apiChat provider dbEval table gen text convId? now).2
    ∧ scopedToUser
        (apiMmChat splitter provider inserter dbEval table gen file? question convId? now).2.2
    ∧ (apiHistory hmem (some cid)).1.userId = some USER_ID := by
  refine ⟨conversations_scoped mem, history_scoped hmem convId?,
    ingest_endpoint_scoped splitter provider inserter table text convId?,
    chat_scoped provider dbEval table gen text convId? now,
    mmchat_scoped splitter provider inserter dbEval table gen file? question convId? now, ?_⟩
  simp [apiHistory, hcid]

/-- Witness for C9 at concrete inputs (conversation id "c1"). -/
theorem claim_C9_witness :
    scopedToUser (apiConversations demoMem).2
    ∧ (apiHistory demoHistMem (some (("c1").toList))).1.userId = some USER_ID := by
  have h := claim_C9_single_user_scoping demoMem demoHistMem none demoSplitter demoProvider
    demoInserter demoDbEval demoTable demoGen (("hi").toList) none (("q").toList) 0
    (("c1").toList) (by decide)
  exact ⟨h.1, h.2.2.2.2.2⟩

/-- The prompt the handlers build always ends with the user message. -/
theorem chatMessagesOf_getLast (sr : Except VError (List SearchRow)) (text : Str) :
    (chatMessagesOf sr text).getLast? = some ⟨Role.user, text⟩ := by
  simp only [chatMessagesOf]
  exact List.getLast?_concat _

/-- The mm-chat tail performs the search and then the generation call for
`USER_ID` with the prompt built from the search outcome. -/
theorem mmcore_props (provider : Str → Except Unit (List Rat))
    (dbEval : List DocumentRow → List Rat → Nat → List SearchRow)
    (table : List DocumentRow) (gen : List Message → Str)
    (effQ conversationId : Str) :
    CallEvent.generate
        (chatMessagesOf (searchDocumentsByQuery provider dbEval table effQ 5).1 effQ)
        USER_ID conversationId
      ∈ (mmChatCore provider dbEval table gen effQ conversationId).2
    ∧ (trim effQ ≠ [] →
        CallEvent.embedApi (trim effQ)
          ∈ (mmChatCore provider dbEval table gen effQ conversationId).2) := by
  constructor
  · simp [mmChatCore]
  · intro h
    simp only [mmChatCore, List.mem_append]
    exact Or.inl (search_embed_event provider dbEval table effQ 5 h)

/-- When the question is blank, the effective question is one of the two
non-blank default constants, each its own trim. -/
theorem mmEffectiveQuestion_blank_trim (question u : Str) (hq : trim question = []) :
    trim (mmEffectiveQuestion question u) = mmEffectiveQuestion question u
    ∧ mmEffectiveQuestion question u ≠ [] := by
  by_cases hup : u = []
  · simp only [mmEffectiveQuestion, hq, if_pos rfl, hup, if_true]
    constructor
    · decide
    · decide
  · simp only [mmEffectiveQuestion, hq, if_pos rfl, hup, if_false]
    constructor
    · decide
    · decide

/-- C10: /api/mm-chat never answers a client error for missing fields; when
the question is blank after trimming the effective question defaults to
"Summarize the uploaded document." for an uploaded file with non-empty text
and to "Explain the uploaded content." otherwise; and whenever the handler
answers 200, that effective question is the user message the generation call
receives and (in the blank-question case) the query the retrieval embeds. -/
theorem claim_C10_mm_chat_defaults (splitter : Str → List Str)
    (provider : Str → Except Unit (List Rat))
    (inserter : Str → Nat → Except VError Unit)
    (dbEval : List DocumentRow → List Rat → Nat → List SearchRow)
    (table : List DocumentRow) (gen : List Message → Str)
    (file? : Option Str) (question : Str) (convId? : Option Str) (now : Nat) :
    (apiMmChat splitter provider inserter dbEval table gen file? question convId? now).1.status
        ≠ 400
    ∧ (trim question = [] →
        mmEffectiveQuestion question (mmUploadedText file?)
          = (if mmUploadedText file? = [] then explainQuestion else summarizeQuestion))
    ∧ ((apiMmChat splitter provider inserter dbEval table gen file? question convId? now).1.status
          = 200 →
        (∃ msgs, CallEvent.generate msgs USER_ID (mmConversationId convId? now)
            ∈ (apiMmChat splitter provider inserter dbEval table gen file? question convId? now).2.2
          ∧ msgs.getLast?
              = some ⟨Role.user, mmEffectiveQuestion question (mmUploadedText file?)⟩)
        ∧ (trim question = [] →
            CallEvent.embedApi (mmEffectiveQuestion question (mmUploadedText file?))
              ∈ (apiMmChat splitter provider inserter dbEval table gen file? question convId? now).2.2)) := by
  refine ⟨?_, ?_, ?_⟩
  · by_cases h : trim (mmUploadedText file?) = []
    · simp [apiMmChat, h, mmChatCore]
    · simp only [apiMmChat, h, if_false]
      rcases hing : ingestDocumentText splitter provider inserter table (mmUploadedText file?)
        with ⟨res, table1, tr⟩
      cases res with
      | error e2 => simp
      | ok u => simp [mmChatCore]
  · intro hq
    simp [mmEffectiveQuestion, hq]
  · intro h200
    by_cases h : trim (mmUploadedText file?) = []
    · have htr : (apiMmChat splitter provider inserter dbEval table gen file? question
          convId? now).2.2
          = (mmChatCore provider dbEval table gen
              (mmEffectiveQuestion question (mmUploadedText file?))
              (mmConversationId convId? now)).2 := by
        simp [apiMmChat, h]
      rw [htr]
      have hprops := mmcore_props provider dbEval table gen
        (mmEffectiveQuestion question (mmUploadedText file?)) (mmConversationId convId? now)
      refine ⟨⟨_, hprops.1, chatMessagesOf_getLast _ _⟩, ?_⟩
      intro hq
      have hblank := mmEffectiveQuestion_blank_trim question (mmUploadedText file?) hq
      have hemb := hprops.2 (by rw [hblank.1]; exact hblank.2)
      rw [hblank.1] at hemb
      exact hemb
    · rcases hing : ingestDocumentText splitter provider inserter table (mmUploadedText file?)
        with ⟨res, table1, tr⟩
      cases res with
      | error e2 =>
        have hst : (apiMmChat splitter provider inserter dbEval table gen file? question
            convId? now).1.status = 500 := by
          simp [apiMmChat, h, hing]
        rw [hst] at h200
        exact absurd h200 (by decide)
      | ok u =>
        have htr : (apiMmChat splitter provider inserter dbEval table gen file? question
            convId? now).2.2
            = tr ++ [CallEvent.addMessage USER_ID (mmConversationId convId? now)]
              ++ (mmChatCore provider dbEval table1 gen
                  (mmEffectiveQuestion question (mmUploadedText file?))
                  (mmConversationId convId? now)).2 := by
          simp [apiMmChat, h, hing]
        rw [htr]
        have hprops := mmcore_props provider dbEval table1 gen
          (mmEffectiveQuestion question (mmUploadedText file?)) (mmConversationId convId? now)
        refine ⟨⟨chatMessagesOf
            (searchDocumentsByQuery provider dbEval table1
              (mmEffectiveQuestion question (mmUploadedText file?)) 5).1
            (mmEffectiveQuestion question (mmUploadedText file?)), ?_,
            chatMessagesOf_getLast _ _⟩, ?_⟩
        · simp only [List.append_assoc, List.mem_append]
          exact Or.inr (Or.inr hprops.1)
        · intro hq
          have hblank := mmEffectiveQuestion_blank_trim question (mmUploadedText file?) hq
          have hemb := hprops.2 (by rw [hblank.1]; exact hblank.2)
          rw [hblank.1] at hemb
          simp only [List.append_assoc, List.mem_append]
          exact Or.inr (Or.inr hemb)

/-- Witness for C10: no file and a whitespace-only question give no client
error and the "Explain the uploaded content." default. -/
theorem claim_C10_witness :
    (apiMmChat demoSplitter demoProvider demoInserter demoDbEval demoTable demoGen
        none (("  ").toList) none 0).1.status ≠ 400
    ∧ mmEffectiveQuestion (("  ").toList) (mmUploadedText none) = explainQuestion := by
  have h := claim_C10_mm_chat_defaults demoSplitter demoProvider demoInserter demoDbEval
    demoTable demoGen none (("  ").toList) none 0
  exact ⟨h.1, (h.2.1 (by decide)).trans (by decide)⟩

/-- Every chosen candidate split lies in the window. -/
theorem boundaryCands_mem (sep s : Str) (p : Nat) (hp : p ∈ boundaryCands sep s) :
    chunkOverlap + 1 ≤ p ∧ p ≤ chunkSize - chunkOverlap ∧ isBoundaryAt sep s p = true := by
  unfold boundaryCands at hp
  rw [List.mem_filter] at hp
  have h1 := hp.1
  rw [List.mem_range'_1] at h1
  refine ⟨h1.1, ?_, hp.2⟩
  have h2 := h1.2
  simp only [chunkSize, chunkOverlap] at h2 ⊢
  omega

/-- The split position always lies in the window `[21, 130]`. -/
theorem pickSplit_bounds (s : Str) :
    chunkOverlap + 1 ≤ pickSplit s ∧ pickSplit s ≤ chunkSize - chunkOverlap := by
  have hmem : ∀ sep p, (boundaryCands sep s).getLast? = some p →
      chunkOverlap + 1 ≤ p ∧ p ≤ chunkSize - chunkOverlap := by
    intro sep p hp
    rw [List.getLast?_eq_some_iff] at hp
    obtain ⟨ys, hys⟩ := hp
    have hpmem : p ∈ boundaryCands sep s := by rw [hys]; simp
    have := boundaryCands_mem sep s p hpmem
    exact ⟨this.1, this.2.1⟩
  unfold pickSplit
  cases hpara : (boundaryCands paragraphSeparator s).getLast? with
  | some p => exact hmem _ p hpara
  | none =>
    cases hline : (boundaryCands lineSeparator s).getLast? with
    | some p => exact hmem _ p hline
    | none =>
      cases hword : (boundaryCands wordSeparator s).getLast? with
      | some p => exact hmem _ p hword
      | none => exact ⟨by decide, Nat.le_refl _⟩

/-- The split prefers a paragraph boundary, then a line boundary, then a
word boundary, else the window end. -/
theorem pickSplit_pref (s : Str) : splitPreference s := by
  have hlast : ∀ sep, boundaryCands sep s ≠ [] →
      ∃ p, (boundaryCands sep s).getLast? = some p ∧ isBoundaryAt sep s p = true := by
    intro sep hne
    cases hl : (boundaryCands sep s).getLast? with
    | none => exact absurd (List.getLast?_eq_none_iff.mp hl) hne
    | some p =>
      refine ⟨p, rfl, ?_⟩
      rw [List.getLast?_eq_some_iff] at hl
      obtain ⟨ys, hys⟩ := hl
      have hpmem : p ∈ boundaryCands sep s := by rw [hys]; simp
      exact (boundaryCands_mem sep s p hpmem).2.2
  unfold splitPreference
  refine ⟨?_, ?_, ?_, ?_⟩
  · intro hne
    obtain ⟨p, hp, hb⟩ := hlast _ hne
    unfold pickSplit
    rw [hp]
    exact hb
  · intro hpe hne
    obtain ⟨p, hp, hb⟩ := hlast _ hne
    unfold pickSplit
    rw [List.getLast?_eq_none_iff.mpr hpe, hp]
    exact hb
  · intro hpe hle hne
    obtain ⟨p, hp, hb⟩ := hlast _ hne
    unfold pickSplit
    rw [List.getLast?_eq_none_iff.mpr hpe, List.getLast?_eq_none_iff.mpr hle, hp]
    exact hb
  · intro hpe hle hwe
    unfold pickSplit
    rw [List.getLast?_eq_none_iff.mpr hpe, List.getLast?_eq_none_iff.mpr hle,
      List.getLast?_eq_none_iff.mpr hwe]

/-- Main invariant of the chunking loop: on non-empty input within fuel, the
chunk list is non-empty, its concatenation ignoring overlap regions restores
the input, adjacent chunks overlap by exactly `chunkOverlap` characters, and
the first chunk is the expected leading slice. -/
theorem chunkGo_spec : ∀ (fuel : Nat) (s : Str), s.length ≤ fuel → s ≠ [] →
    chunkGo fuel s ≠ []
    ∧ recon (chunkGo fuel s) = s
    ∧ adjOvB (chunkGo fuel s) = true
    ∧ (chunkGo fuel s).headD []
        = s.take (if s.length ≤ chunkSize then s.length else pickSplit s + chunkOverlap) := by
  intro fuel
  induction fuel with
  | zero =>
    intro s hs hne
    exact absurd (List.length_eq_zero.mp (Nat.le_zero.mp hs)) hne
  | succ fuel ih =>
    intro s hs hne
    have hco : chunkOverlap = 20 := rfl
    have hcs : chunkSize = 150 := rfl
    by_cases hle : s.length ≤ chunkSize
    · refine ⟨by simp [chunkGo, hle], ?_, ?_, ?_⟩
      · simp [chunkGo, hle, recon, reconTail]
      · simp only [chunkGo, if_pos hle]
        rfl
      · simp only [chunkGo, if_pos hle, List.headD_cons, if_pos hle, List.take_length]
    · have hp := pickSplit_bounds s
      have hp1 : 21 ≤ pickSplit s := by rw [hco] at hp; exact hp.1
      have hp2 : pickSplit s ≤ 130 := by rw [hco, hcs] at hp; exact hp.2
      have hsz : 150 < s.length := by rw [hcs] at hle; omega
      have hrlen : (s.drop (pickSplit s)).length = s.length - pickSplit s :=
        List.length_drop _ _
      have hrest_ne : s.drop (pickSplit s) ≠ [] := by
        intro hcon
        have hlen0 := congrArg List.length hcon
        rw [hrlen] at hlen0
        simp at hlen0
        omega
      have hfuel : (s.drop (pickSplit s)).length ≤ fuel := by
        rw [hrlen]
        omega
      obtain ⟨ih1, ih2, ih3, ih4⟩ := ih (s.drop (pickSplit s)) hfuel hrest_ne
      rcases hck : chunkGo fuel (s.drop (pickSplit s)) with _ | ⟨h1, t⟩
      · exact absurd hck ih1
      rw [hck] at ih2 ih3 ih4
      simp only [List.headD_cons] at ih4
      have hm21 : 21 ≤ (if (s.drop (pickSplit s)).length ≤ chunkSize
          then (s.drop (pickSplit s)).length
          else pickSplit (s.drop (pickSplit s)) + chunkOverlap) := by
        by_cases hr : (s.drop (pickSplit s)).length ≤ chunkSize
        · rw [if_pos hr, hrlen]
          omega
        · rw [if_neg hr]
          have hb := pickSplit_bounds (s.drop (pickSplit s))
          rw [hco] at hb ⊢
          omega
      have hr21 : 21 ≤ (s.drop (pickSplit s)).length := by
        rw [hrlen]
        omega
      have hh1len : 21 ≤ h1.length := by
        rw [ih4, List.length_take]
        omega
      have hh1take : h1.take chunkOverlap = (s.drop (pickSplit s)).take chunkOverlap := by
        rw [ih4, List.take_take]
        congr 1
        omega
      have hreconTail : reconTail (h1 :: t) = (s.drop (pickSplit s)).drop chunkOverlap := by
        have hsplit : h1 ++ reconTail t = s.drop (pickSplit s) := by
          simpa [recon] using ih2
        have hstep : reconTail (h1 :: t) = h1.drop chunkOverlap ++ reconTail t := by
          simp [reconTail]
        rw [hstep, ← List.drop_append_of_le_length (by rw [hco]; omega), hsplit]
      have hc0 : chunkGo (fuel + 1) s
          = s.take (pickSplit s + chunkOverlap) :: h1 :: t := by
        simp [chunkGo, hle, hck]
      have hc0len : (s.take (pickSplit s + chunkOverlap)).length
          = pickSplit s + chunkOverlap := by
        rw [List.length_take, hco]
        omega
      refine ⟨?_, ?_, ?_, ?_⟩
      · rw [hc0]
        simp
      · rw [hc0]
        simp only [recon]
        rw [hreconTail, List.drop_drop]
        exact List.take_append_drop _ _
      · rw [hc0]
        simp only [adjOvB, Bool.and_eq_true, decide_eq_true_eq]
        refine ⟨⟨⟨?_, ?_⟩, ?_⟩, ih3⟩
        · rw [hc0len, Nat.add_sub_cancel, hh1take, List.drop_take,
            Nat.add_sub_cancel_left]
        · rw [hc0len]
          exact Nat.le_add_left _ _
        · rw [hco]
          omega
      · rw [hc0]
        simp only [List.headD_cons, if_neg hle]

/-- A sample two-paragraph document longer than one chunk. -/
def demoDoc : Str :=
  List.replicate 100 'a' ++ ['\n', '\n'] ++ List.replicate 100 'b'

/-- C5: for text that is non-blank after trimming, the chunker yields a
non-empty chunk sequence whose concatenation ignoring overlap regions
reconstructs the trimmed text, adjacent chunks overlap by exactly the
configured 20 characters, and each split prefers a paragraph boundary, then
a line boundary, then a word boundary, falling back to a character split. -/
theorem claim_C5_chunker_reconstruction (text : Str) (h : trim text ≠ []) :
    chunkModel text ≠ []
    ∧ recon (chunkModel text) = trim text
    ∧ adjOvB (chunkModel text) = true
    ∧ splitPreference (trim text) := by
  have hs := chunkGo_spec (trim text).length (trim text) (Nat.le_refl _) h
  unfold chunkModel
  rw [if_neg h]
  exact ⟨hs.1, hs.2.1, hs.2.2.1, pickSplit_pref (trim text)⟩

/-- Witness for C5 at a concrete two-paragraph 202-character document: the
chunking is non-empty, reconstructs the text, overlaps adjacent chunks by 20
characters, and splits at the paragraph boundary. -/
theorem claim_C5_witness :
    chunkModel demoDoc ≠ []
    ∧ recon (chunkModel demoDoc) = trim demoDoc
    ∧ adjOvB (chunkModel demoDoc) = true
    ∧ isBoundaryAt paragraphSeparator (trim demoDoc) (pickSplit (trim demoDoc)) = true := by
  have h := claim_C5_chunker_reconstruction demoDoc (by decide)
  have hsp := h.2.2.2
  unfold splitPreference at hsp
  exact ⟨h.1, h.2.1, h.2.2.1, hsp.1 (by decide)⟩
